import Mathlib

/-!
Verification of the DeskWork frontend orchestration state (deskwork/src).

The definitions below are a shallow embedding of the React state handlers in
`App.tsx`, `RightSidebar.tsx` and `ActivityStream.tsx`: each `setX(prev => ...)`
updater or memoized selector is translated into a pure Lean function on the
corresponding state.  JavaScript numbers holding timestamps are modelled as
`Nat` (milliseconds for `Date.now()`, seconds for `expires_at`, as in the
source); the `current_step` field of a plan payload is an `Int` because the
event payload may carry a negative number.  Optional TypeScript fields are
modelled with `Option`.
-/

namespace Deskwork

/-- `role ∈ {user, assistant, tool}` from the `Message` interface in App.tsx. -/
inductive Role where
  | user
  | assistant
  | tool
deriving DecidableEq, Repr

/-- The `function` payload of a `ToolCall` (App.tsx, `interface ToolCall`). -/
structure ToolCallFn where
  name : String
  arguments : String
deriving DecidableEq, Repr

/-- `interface ToolCall` from App.tsx (the literal type tag is omitted). -/
structure ToolCall where
  id : String
  function : ToolCallFn
deriving DecidableEq, Repr

/-- `interface Message` from App.tsx.  The claims under study only ever
inspect string-typed content, so `content` is modelled as `String`
(the `MessageContentPart[]` alternative is never consulted by the handlers
embedded here). -/
structure Message where
  role : Role
  content : String
  tool_calls : Option (List ToolCall) := none
  tool_call_id : Option String := none
deriving DecidableEq, Repr

/-- `interface PendingApproval` from App.tsx: `expires_at` is an absolute
time in seconds; zero means no expiry. -/
structure PendingApproval where
  id : String
  action : String
  reason : String
  expires_at : Nat
deriving DecidableEq, Repr

/-- The `status` field of an `ActivityEvent`. -/
inductive ActivityStatus where
  | pending
  | running
  | success
  | error
deriving DecidableEq, Repr

/-- `interface ActivityEvent` (App.tsx / RightSidebar.tsx / ActivityStream.tsx). -/
structure ActivityEvent where
  id : String
  status : ActivityStatus
  message : String
  timestamp : Nat
deriving DecidableEq, Repr

/-- `interface Session` from App.tsx.  The optional `pinned` flag is modelled
as a `Bool`: an absent flag behaves exactly like `false` everywhere the
source reads it (`a.pinned ? 1 : 0`). -/
structure Session where
  id : String
  title : String
  updated_at : Nat
  pinned : Bool
deriving DecidableEq, Repr

/-- `interface PlanEvent` (RightSidebar.tsx / ActivityStream.tsx).
`current_step` is an `Int`: the payload arrives from the event channel and
nothing in the listener restricts its range. -/
structure PlanEvent where
  steps : List String
  current_step : Int
deriving DecidableEq, Repr

/-- `interface TelemetryEvent` from RightSidebar.tsx. -/
structure TelemetryEvent where
  tool : String
  status : String
  duration_ms : Nat
  kind : String
deriving DecidableEq, Repr

/-- `interface Skill` from RightSidebar.tsx. -/
structure Skill where
  id : String
  name : String
  description : String
  enabled : Bool
deriving DecidableEq, Repr

/-!
### C1: active approvals and lazy expiry (App.tsx lines 117-120)

```ts
const activeApprovals = useMemo(
  () => pendingApprovals.filter((p) => !p.expires_at || p.expires_at * 1000 > Date.now()),
  [pendingApprovals]
);
```

`!p.expires_at` is true exactly when `expires_at` is zero; `Date.now()` is
the current time in milliseconds, so the comparison is `expires_at * 1000 >
now`.
-/

/-- The `activeApprovals` memo from App.tsx: keep an approval when its
`expires_at` is zero (no expiry) or its expiry instant is still in the
future.  `now` is the current time in milliseconds (`Date.now()`). -/
def activeApprovals (pendingApprovals : List PendingApproval) (now : Nat) :
    List PendingApproval :=
  pendingApprovals.filter (fun p => decide (p.expires_at = 0 ∨ p.expires_at * 1000 > now))

/-!
### C2: handleSubmit guard (App.tsx lines 490-506)

The synchronous prefix of `handleSubmit` is embedded; the `Bool` component of
the result records whether the backend `chat` command is invoked (the part of
the handler after the guards).  The guards come verbatim from the source:

```ts
if (!workingDir) return;
const promptToSend = promptOverride || input;
if (!promptToSend.trim() || isLoading) return;
```
-/

/-- The slice of the `App` component state that `handleSubmit` reads and
writes synchronously. -/
structure AppState where
  input : String
  messages : List Message
  isLoading : Bool
  workingDir : Option String
  currentSessionId : Option String
  streamingMessageIndex : Option Nat
  currentActivity : Option ActivityEvent
deriving DecidableEq, Repr

/-- `const promptToSend = promptOverride || input;` — JavaScript `||` falls
through to `input` when the override is absent or the empty string. -/
def promptToSend (st : AppState) (promptOverride : Option String) : String :=
  match promptOverride with
  | some s => if s = "" then st.input else s
  | none => st.input

/-- The synchronous prefix of `handleSubmit` from App.tsx.  Returns the new
state together with a flag that is `true` exactly when control reaches the
backend `chat` invocation.  (Session creation and the asynchronous response
handling happen after this prefix and do not affect the guard behaviour.) -/
def handleSubmit (st : AppState) (promptOverride : Option String) :
    AppState × Bool :=
  if st.workingDir = none then (st, false)
  else
    let p := promptToSend st promptOverride
    if p.trim = "" ∨ st.isLoading then (st, false)
    else
      ({ st with
          messages := st.messages ++ [{ role := Role.user, content := p }],
          streamingMessageIndex := none,
          input := "",
          isLoading := true,
          currentActivity := none }, true)

/-- C1: an approval with `expires_at = 0` never expires and stays in the
active approvals offered for approve/deny; an approval with a non-zero
`expires_at` strictly earlier than the current time is excluded from the
active approvals. -/
theorem activeApprovals_zero_kept_expired_excluded
    (ps : List PendingApproval) (now : Nat) (p : PendingApproval) :
    (p ∈ ps → p.expires_at = 0 → p ∈ activeApprovals ps now) ∧
    (p.expires_at ≠ 0 → p.expires_at * 1000 < now → p ∉ activeApprovals ps now) := by
  constructor
  · intro hmem hz
    simp [activeApprovals, List.mem_filter]
    exact ⟨hmem, Or.inl hz⟩
  · intro hnz hlt hmem
    rw [activeApprovals, List.mem_filter] at hmem
    rcases hmem with ⟨-, hp⟩
    simp only [decide_eq_true_eq] at hp
    rcases hp with h | h
    · exact hnz h
    · omega

/-- Witness for C1 at a concrete list and time: the zero-expiry approval is
active, the stale one is not. -/
theorem activeApprovals_zero_kept_expired_excluded_witness :
    (⟨"a", "run", "r", 0⟩ : PendingApproval) ∈
        activeApprovals [⟨"a", "run", "r", 0⟩, ⟨"b", "rm", "s", 1⟩] 5000 ∧
    (⟨"b", "rm", "s", 1⟩ : PendingApproval) ∉
        activeApprovals [⟨"a", "run", "r", 0⟩, ⟨"b", "rm", "s", 1⟩] 5000 :=
  ⟨(activeApprovals_zero_kept_expired_excluded _ 5000 _).1 (by decide) rfl,
   (activeApprovals_zero_kept_expired_excluded _ 5000 _).2 (by decide) (by decide)⟩

/-- C2: `handleSubmit` is a no-op — state unchanged and no chat invocation —
whenever the working directory is unset, the prompt to send is empty or
whitespace-only, or a turn is already in flight (`isLoading`).  The third
guard is what prevents two turns on the same session from overlapping. -/
theorem handleSubmit_noop (st : AppState) (ov : Option String)
    (h : st.workingDir = none ∨ (promptToSend st ov).trim = "" ∨
         st.isLoading = true) :
    handleSubmit st ov = (st, false) := by
  rw [handleSubmit]
  rcases h with h | h | h
  · simp [h]
  · by_cases hw : st.workingDir = none
    · simp [hw]
    · simp [hw, h]
  · by_cases hw : st.workingDir = none
    · simp [hw]
    · simp [hw, h]

/-- Witness for C2: a state with a turn in flight rejects a fresh submit. -/
theorem handleSubmit_noop_witness :
    handleSubmit ⟨"hello", [], true, some "/tmp", none, none, none⟩ none =
      (⟨"hello", [], true, some "/tmp", none, none, none⟩, false) :=
  handleSubmit_noop _ none (Or.inr (Or.inr rfl))

/-!
### Plan updates (RightSidebar.tsx lines 181-183, ActivityStream.tsx lines 36-38)

Both components install the same listener:

```ts
const unlistenPlan = listen<PlanEvent>("plan_update", (event) => {
  setPlan(event.payload);
});
```

The payload is stored as-is; no field is inspected, clamped or rejected.
-/

/-- The observer state of `RightSidebar` touched by its event listeners. -/
structure SidebarState where
  activities : List ActivityEvent
  plan : Option PlanEvent
  telemetry : List TelemetryEvent
  skills : List Skill
deriving DecidableEq, Repr

/-- The `plan_update` listener (identical in RightSidebar.tsx and
ActivityStream.tsx): `setPlan(event.payload)`. -/
def handlePlanUpdate (st : SidebarState) (payload : PlanEvent) : SidebarState :=
  { st with plan := some payload }

/-- C3 counterexample: a `plan_update` payload with `current_step = 5` and a
single step is stored as-is, so the observable plan state violates
`current_step <= len(steps)` — the listener performs no clamping. -/
theorem planUpdate_out_of_range_stored :
    (handlePlanUpdate ⟨[], none, [], []⟩ ⟨["step one"], 5⟩).plan =
        some ⟨["step one"], 5⟩ ∧
    ¬ ((5 : Int) ≤ (((["step one"] : List String)).length : Int)) :=
  ⟨rfl, by decide⟩

/-- C3 amended: the `plan_update` listener stores the payload verbatim —
no clamping and no rejection — so the observable plan satisfies
`0 <= current_step <= len(steps)` exactly when the payload already does. -/
theorem planUpdate_stores_verbatim (st : SidebarState) (p : PlanEvent) :
    (handlePlanUpdate st p).plan = some p ∧
    (∀ q, (handlePlanUpdate st p).plan = some q →
      ((0 ≤ q.current_step ∧ q.current_step ≤ (q.steps.length : Int)) ↔
       (0 ≤ p.current_step ∧ p.current_step ≤ (p.steps.length : Int)))) := by
  refine ⟨rfl, ?_⟩
  intro q hq
  have h2 : p = q := by
    simpa [handlePlanUpdate] using hq
  rw [← h2]

/-- Witness for the amended C3 at a concrete in-range payload. -/
theorem planUpdate_stores_verbatim_witness :
    (handlePlanUpdate ⟨[], none, [], []⟩ ⟨["a", "b"], 1⟩).plan =
        some ⟨["a", "b"], 1⟩ ∧
    ((0 : Int) ≤ 1 ∧ (1 : Int) ≤ ((["a", "b"] : List String).length : Int)) :=
  ⟨(planUpdate_stores_verbatim ⟨[], none, [], []⟩ ⟨["a", "b"], 1⟩).1,
   ((planUpdate_stores_verbatim ⟨[], none, [], []⟩ ⟨["a", "b"], 1⟩).2
      ⟨["a", "b"], 1⟩ rfl).mpr (by decide)⟩

/-- C9: handling `plan_update` replaces the stored plan entirely with the
payload, regardless of the previously stored plan; it changes no other
observer state (activities, telemetry, skills); afterwards only the latest
plan is observable — the result does not depend on the previous plan. -/
theorem planUpdate_wholesale_frame (st st' : SidebarState) (p : PlanEvent) :
    (handlePlanUpdate st p).plan = some p ∧
    (handlePlanUpdate st' p).plan = (handlePlanUpdate st p).plan ∧
    (handlePlanUpdate st p).activities = st.activities ∧
    (handlePlanUpdate st p).telemetry = st.telemetry ∧
    (handlePlanUpdate st p).skills = st.skills :=
  ⟨rfl, rfl, rfl, rfl, rfl⟩

/-!
### Pending approvals (App.tsx lines 337-353)

```ts
const unlistenApprovalReq = listen<any>("approval_request", (event) => {
  const payload = event.payload as any;
  setPendingApprovals((prev) => {
    const filtered = prev.filter((p) => p.id !== payload.id);
    return [...filtered, { id: payload.id, action: payload.action,
      reason: payload.reason, expires_at: payload.expires_at ?? 0 }];
  });
});

const unlistenApprovalResolved = listen<any>("approval_resolved", (event) => {
  const payload = event.payload as any;
  setPendingApprovals((prev) => prev.filter((p) => p.id !== payload.id));
});
```
-/

/-- The wire payload of an `approval_request` event; `expires_at` may be
absent (`payload.expires_at ?? 0`). -/
structure ApprovalRequestPayload where
  id : String
  action : String
  reason : String
  expires_at : Option Nat
deriving DecidableEq, Repr

/-- The entry the `approval_request` listener stores for a payload. -/
def approvalEntry (payload : ApprovalRequestPayload) : PendingApproval :=
  { id := payload.id, action := payload.action, reason := payload.reason,
    expires_at := payload.expires_at.getD 0 }

/-- The `approval_request` listener from App.tsx: drop any existing entry
with the payload id, then append the fresh entry. -/
def handleApprovalRequest (prev : List PendingApproval)
    (payload : ApprovalRequestPayload) : List PendingApproval :=
  let filtered := prev.filter (fun p => decide (p.id ≠ payload.id))
  filtered ++ [approvalEntry payload]

/-- The `approval_resolved` listener from App.tsx: remove every entry whose
id equals the resolved id. -/
def handleApprovalResolved (prev : List PendingApproval) (resolvedId : String) :
    List PendingApproval :=
  prev.filter (fun p => decide (p.id ≠ resolvedId))

/-- Reachable pending-approval lists: starting empty and applying the two
listeners in any order. -/
inductive ApprovalReachable : List PendingApproval → Prop where
  | init : ApprovalReachable []
  | request (prev payload) : ApprovalReachable prev →
      ApprovalReachable (handleApprovalRequest prev payload)
  | resolved (prev resolvedId) : ApprovalReachable prev →
      ApprovalReachable (handleApprovalResolved prev resolvedId)

theorem filter_ne_idem (l : List PendingApproval) (x : String) :
    (l.filter (fun p => decide (p.id ≠ x))).filter (fun p => decide (p.id ≠ x)) =
      l.filter (fun p => decide (p.id ≠ x)) := by
  induction l with
  | nil => rfl
  | cons a l ih =>
    by_cases h : a.id = x
    · simp [List.filter_cons, h, ih]
    · simp [List.filter_cons, h, ih]

theorem approvalRequest_nodup (l : List PendingApproval)
    (hl : (l.map PendingApproval.id).Nodup) (payload : ApprovalRequestPayload) :
    ((handleApprovalRequest l payload).map PendingApproval.id).Nodup := by
  rw [handleApprovalRequest]
  simp only [List.map_append, List.map_cons, List.map_nil, List.nodup_append]
  refine ⟨?_, List.nodup_singleton _, ?_⟩
  · exact List.Nodup.sublist (l.filter_sublist.map _) hl
  · intro a ha
    simp only [List.mem_map, List.mem_filter, decide_eq_true_eq] at ha
    rcases ha with ⟨p, ⟨-, hne⟩, rfl⟩
    simp [approvalEntry]
    exact fun h => hne h

theorem approvalResolved_nodup (l : List PendingApproval)
    (hl : (l.map PendingApproval.id).Nodup) (x : String) :
    ((handleApprovalResolved l x).map PendingApproval.id).Nodup :=
  List.Nodup.sublist (l.filter_sublist.map _) hl

theorem approvalReachable_nodup (l : List PendingApproval)
    (h : ApprovalReachable l) : (l.map PendingApproval.id).Nodup := by
  induction h with
  | init => simp
  | request prev payload _ ih => exact approvalRequest_nodup prev ih payload
  | resolved prev resolvedId _ ih => exact approvalResolved_nodup prev ih resolvedId

/-- C5: handling the same `approval_request` twice in a row yields the same
pending list as handling it once, and every reachable pending-approvals
list has pairwise-distinct approval ids (at most one entry per id). -/
theorem approvalRequest_idempotent_and_unique
    (prev : List PendingApproval) (payload : ApprovalRequestPayload) :
    handleApprovalRequest (handleApprovalRequest prev payload) payload =
      handleApprovalRequest prev payload ∧
    (∀ l, ApprovalReachable l → (l.map PendingApproval.id).Nodup) := by
  constructor
  · rw [handleApprovalRequest, handleApprovalRequest]
    simp only [List.filter_append]
    rw [filter_ne_idem]
    have hdrop : ([approvalEntry payload].filter
        (fun p => decide (p.id ≠ payload.id))) = [] := by
      simp [approvalEntry]
    rw [hdrop, List.append_nil]
  · exact approvalReachable_nodup

/-- Witness for C5 at a concrete event: the second delivery of the same
`approval_request` leaves the list unchanged, and a concrete reachable
state has distinct ids. -/
theorem approvalRequest_idempotent_and_unique_witness :
    handleApprovalRequest
        (handleApprovalRequest [] ⟨"a1", "rm -rf", "destructive", some 99⟩)
        ⟨"a1", "rm -rf", "destructive", some 99⟩ =
      handleApprovalRequest [] ⟨"a1", "rm -rf", "destructive", some 99⟩ ∧
    ((handleApprovalRequest [] ⟨"a1", "rm -rf", "destructive", some 99⟩).map
        PendingApproval.id).Nodup :=
  ⟨(approvalRequest_idempotent_and_unique [] ⟨"a1", "rm -rf", "destructive", some 99⟩).1,
   (approvalRequest_idempotent_and_unique [] ⟨"a1", "rm -rf", "destructive", some 99⟩).2
     _ (ApprovalReachable.request [] _ ApprovalReachable.init)⟩

/-- C6: resolving id `x` removes exactly the entries with id `x` — the
result is a subsequence of the previous list (all other approvals keep
their relative order) containing precisely the entries whose id differs
from `x` — and resolving the same id again is a no-op. -/
theorem approvalResolved_removes_and_noop
    (prev : List PendingApproval) (x : String) :
    (∀ p ∈ handleApprovalResolved prev x, p.id ≠ x) ∧
    (handleApprovalResolved prev x).Sublist prev ∧
    (∀ p ∈ prev, p.id ≠ x → p ∈ handleApprovalResolved prev x) ∧
    handleApprovalResolved (handleApprovalResolved prev x) x =
      handleApprovalResolved prev x := by
  refine ⟨?_, ?_, ?_, ?_⟩
  · intro p hp
    rw [handleApprovalResolved, List.mem_filter] at hp
    simpa using hp.2
  · exact prev.filter_sublist
  · intro p hp hne
    rw [handleApprovalResolved, List.mem_filter]
    exact ⟨hp, by simpa using hne⟩
  · exact filter_ne_idem prev x

/-- Witness for C6 at a concrete list: resolving `"a1"` removes it, keeps
the other entry, and a second resolution changes nothing. -/
theorem approvalResolved_removes_and_noop_witness :
    ((⟨"a1", "x", "r", 0⟩ : PendingApproval) ∈
        ([⟨"a1", "x", "r", 0⟩, ⟨"b2", "y", "s", 0⟩] : List PendingApproval) ∧
      (⟨"b2", "y", "s", 0⟩ : PendingApproval) ∈
        handleApprovalResolved [⟨"a1", "x", "r", 0⟩, ⟨"b2", "y", "s", 0⟩] "a1") ∧
    handleApprovalResolved
        (handleApprovalResolved [⟨"a1", "x", "r", 0⟩, ⟨"b2", "y", "s", 0⟩] "a1")
        "a1" =
      handleApprovalResolved [⟨"a1", "x", "r", 0⟩, ⟨"b2", "y", "s", 0⟩] "a1" :=
  ⟨⟨by decide,
    (approvalResolved_removes_and_noop
        [⟨"a1", "x", "r", 0⟩, ⟨"b2", "y", "s", 0⟩] "a1").2.2.1
      ⟨"b2", "y", "s", 0⟩ (by decide) (by decide)⟩,
   (approvalResolved_removes_and_noop
       [⟨"a1", "x", "r", 0⟩, ⟨"b2", "y", "s", 0⟩] "a1").2.2.2⟩

/-!
### C4: activity coalescing by id
(RightSidebar.tsx lines 168-179, ActivityStream.tsx lines 23-34)

Both components install the identical listener:

```ts
setActivities((prev) => {
  const index = prev.findIndex((a) => a.id === event.payload.id);
  if (index >= 0) {
    const newActivities = [...prev];
    newActivities[index] = { ...event.payload, timestamp: Date.now() };
    return newActivities;
  } else {
    return [...prev, { ...event.payload, timestamp: Date.now() }];
  }
});
```
-/

/-- The `activity` listener shared by RightSidebar.tsx and ActivityStream.tsx:
replace the first entry with the payload id in place, otherwise append; the
stored entry carries the receive time as its timestamp. -/
def handleActivity (prev : List ActivityEvent) (payload : ActivityEvent)
    (now : Nat) : List ActivityEvent :=
  match prev.findIdx? (fun a => a.id == payload.id) with
  | some index => prev.set index { payload with timestamp := now }
  | none => prev ++ [{ payload with timestamp := now }]

/-- Reachable activity lists: starting empty and applying the listener. -/
inductive ActivityReachable : List ActivityEvent → Prop where
  | init : ActivityReachable []
  | step (prev payload now) : ActivityReachable prev →
      ActivityReachable (handleActivity prev payload now)

theorem set_self_of_getElem? {α : Type} (l : List α) (i : Nat) (a : α)
    (h : l[i]? = some a) : l.set i a = l := by
  induction l generalizing i with
  | nil => simp at h
  | cons x xs ih =>
    cases i with
    | zero =>
      simp only [List.getElem?_cons_zero, Option.some.injEq] at h
      simp [h]
    | succ n =>
      simp only [List.getElem?_cons_succ] at h
      simp [ih n h]

theorem handleActivity_nodup (prev : List ActivityEvent)
    (hl : (prev.map ActivityEvent.id).Nodup) (payload : ActivityEvent)
    (now : Nat) :
    ((handleActivity prev payload now).map ActivityEvent.id).Nodup := by
  cases hfind : prev.findIdx? (fun a => a.id == payload.id) with
  | none =>
    have heq : handleActivity prev payload now =
        prev ++ [{ payload with timestamp := now }] := by
      simp only [handleActivity, hfind]
    rw [heq]
    rw [List.findIdx?_eq_none_iff] at hfind
    simp only [List.map_append, List.map_cons, List.map_nil, List.nodup_append]
    refine ⟨hl, List.nodup_singleton _, ?_⟩
    intro x hx
    simp only [List.mem_map] at hx
    rcases hx with ⟨a, ha, rfl⟩
    have := hfind a ha
    simp only [beq_eq_false_iff_ne, ne_eq] at this
    simp [this]
  | some i =>
    have heq : handleActivity prev payload now =
        prev.set i { payload with timestamp := now } := by
      simp only [handleActivity, hfind]
    rw [heq]
    rw [List.findIdx?_eq_some_iff_findIdx_eq] at hfind
    rcases hfind with ⟨hlt, hidx⟩
    subst hidx
    have hp : (prev[List.findIdx (fun a => a.id == payload.id) prev].id ==
        payload.id) = true :=
      @List.findIdx_getElem _ (fun a => a.id == payload.id) prev hlt
    have hid : prev[List.findIdx (fun a => a.id == payload.id) prev].id =
        payload.id := by simpa using hp
    have hmap : ((prev.set (List.findIdx (fun a => a.id == payload.id) prev)
        { payload with timestamp := now }).map
        ActivityEvent.id) = prev.map ActivityEvent.id := by
      rw [List.map_set]
      apply set_self_of_getElem?
      have hsome : (prev.map ActivityEvent.id)[List.findIdx
          (fun a => a.id == payload.id) prev]? =
          some prev[List.findIdx (fun a => a.id == payload.id) prev].id := by
        simp [List.getElem?_map, List.getElem?_eq_getElem hlt]
      rw [hsome, hid]
    rw [hmap]
    exact hl

theorem activityReachable_nodup (l : List ActivityEvent)
    (h : ActivityReachable l) : (l.map ActivityEvent.id).Nodup := by
  induction h with
  | init => simp
  | step prev payload now _ ih => exact handleActivity_nodup prev ih payload now

/-- C4: when the list already holds an entry with the payload id, the
listener replaces that entry in place (same length; every other position
unchanged; the stored entry is the new event stamped with the receive time);
otherwise it appends the event at the end; and every reachable activity
list has at most one entry per id. -/
theorem activity_replace_in_place_or_append
    (prev : List ActivityEvent) (payload : ActivityEvent) (now : Nat) :
    ((∃ a ∈ prev, a.id = payload.id) →
       ∃ i, prev.findIdx? (fun a => a.id == payload.id) = some i) ∧
    (∀ i, prev.findIdx? (fun a => a.id == payload.id) = some i →
       (handleActivity prev payload now).length = prev.length ∧
       (handleActivity prev payload now)[i]? =
         some { payload with timestamp := now } ∧
       (∀ j, j ≠ i → (handleActivity prev payload now)[j]? = prev[j]?)) ∧
    ((∀ a ∈ prev, a.id ≠ payload.id) →
       handleActivity prev payload now =
         prev ++ [{ payload with timestamp := now }]) ∧
    (∀ l, ActivityReachable l → (l.map ActivityEvent.id).Nodup) := by
  refine ⟨?_, ?_, ?_, activityReachable_nodup⟩
  · intro hex
    cases hfind : prev.findIdx? (fun a => a.id == payload.id) with
    | none =>
      rw [List.findIdx?_eq_none_iff] at hfind
      rcases hex with ⟨a, ha, hid⟩
      have := hfind a ha
      simp [hid] at this
    | some i => exact ⟨i, rfl⟩
  · intro i hfind
    have hlt : i < prev.length :=
      (List.findIdx?_eq_some_iff_findIdx_eq.mp hfind).1
    have heq : handleActivity prev payload now =
        prev.set i { payload with timestamp := now } := by
      simp only [handleActivity, hfind]
    rw [heq]
    refine ⟨List.length_set prev i _, List.getElem?_set_self hlt, ?_⟩
    intro j hj
    exact List.getElem?_set_ne (fun h => hj h.symm)
  · intro hnone
    have hfind : prev.findIdx? (fun a => a.id == payload.id) = none := by
      rw [List.findIdx?_eq_none_iff]
      intro a ha
      simp [hnone a ha]
    simp only [handleActivity, hfind]

/-- Witness for C4: replaying an id replaces in place at a concrete list;
a fresh id is appended; a concrete reachable state has distinct ids. -/
theorem activity_replace_in_place_or_append_witness :
    (handleActivity [⟨"t1", ActivityStatus.running, "working", 10⟩]
        ⟨"t1", ActivityStatus.success, "done", 0⟩ 20).length = 1 ∧
    handleActivity [⟨"t1", ActivityStatus.running, "working", 10⟩]
        ⟨"t2", ActivityStatus.pending, "queued", 0⟩ 30 =
      [⟨"t1", ActivityStatus.running, "working", 10⟩,
       ⟨"t2", ActivityStatus.pending, "queued", 30⟩] ∧
    (((handleActivity [] ⟨"t1", ActivityStatus.running, "working", 10⟩ 10).map
        ActivityEvent.id).Nodup) :=
  ⟨((activity_replace_in_place_or_append
        [⟨"t1", ActivityStatus.running, "working", 10⟩]
        ⟨"t1", ActivityStatus.success, "done", 0⟩ 20).2.1 0 (by decide)).1,
   (activity_replace_in_place_or_append
        [⟨"t1", ActivityStatus.running, "working", 10⟩]
        ⟨"t2", ActivityStatus.pending, "queued", 0⟩ 30).2.2.1 (by decide),
   (activity_replace_in_place_or_append [] ⟨"x", ActivityStatus.pending, "m", 0⟩ 0).2.2.2
     _ (ActivityReachable.step [] ⟨"t1", ActivityStatus.running, "working", 10⟩ 10
          ActivityReachable.init)⟩

/-!
### C7: chat_stream token accumulation (App.tsx lines 355-373)

```ts
const unlistenStream = listen<any>("chat_stream", (event) => {
  const payload = event.payload as any;
  if (payload.done) {
    streamingMessageIndex.current = null;
    return;
  }
  setMessages((prev) => {
    if (streamingMessageIndex.current === null) {
      const idx = prev.length;
      streamingMessageIndex.current = idx;
      return [...prev, { role: "assistant", content: payload.token || "" }];
    }
    return prev.map((m, idx) =>
      idx === streamingMessageIndex.current
        ? { ...m, content: `${m.content || ""}${payload.token || ""}` }
        : m,
    );
  });
});
```
-/

/-- The state the `chat_stream` listener reads and writes: the message list
and the `streamingMessageIndex` ref. -/
structure StreamState where
  messages : List Message
  streamingMessageIndex : Option Nat
deriving DecidableEq, Repr

/-- The `prev.map((m, idx) => idx === i ? { ...m, content: m.content + t } : m)`
update: append `t` to the content of the message at index `i`, leaving every
other message untouched. -/
def appendTokenAt : List Message → Nat → String → List Message
  | [], _, _ => []
  | m :: rest, 0, t => { m with content := m.content ++ t } :: rest
  | m :: rest, Nat.succ n, t => m :: appendTokenAt rest n t

/-- The `chat_stream` listener on a non-`done` payload carrying `token`.
(`payload.token || ""` is the token itself; a missing token is the empty
string, which concatenation also absorbs.) -/
def handleChatToken (st : StreamState) (token : String) : StreamState :=
  match st.streamingMessageIndex with
  | none =>
      { messages := st.messages ++ [{ role := Role.assistant, content := token }],
        streamingMessageIndex := some st.messages.length }
  | some i => { st with messages := appendTokenAt st.messages i token }

/-- The `chat_stream` listener on a `done` payload: reset the streaming
index; the message list is not touched. -/
def handleChatDone (st : StreamState) : StreamState :=
  { st with streamingMessageIndex := none }

/-- Handling an in-order sequence of token events. -/
def processTokens (st : StreamState) (tokens : List String) : StreamState :=
  tokens.foldl handleChatToken st

/-- Concatenation of the tokens in arrival order. -/
def concatTokens : List String → String
  | [] => ""
  | t :: ts => t ++ concatTokens ts

theorem appendTokenAt_append (msgs : List Message) (m : Message) (t : String) :
    appendTokenAt (msgs ++ [m]) msgs.length t =
      msgs ++ [{ m with content := m.content ++ t }] := by
  induction msgs with
  | nil => rfl
  | cons x xs ih => simp [appendTokenAt, ih]

theorem processTokens_streaming (ts : List String) (msgs : List Message)
    (m : Message) :
    processTokens ⟨msgs ++ [m], some msgs.length⟩ ts =
      ⟨msgs ++ [{ m with content := m.content ++ concatTokens ts }],
       some msgs.length⟩ := by
  induction ts generalizing m with
  | nil => simp [processTokens, concatTokens]
  | cons t ts ih =>
    rw [processTokens, List.foldl_cons]
    have hstep : handleChatToken ⟨msgs ++ [m], some msgs.length⟩ t =
        ⟨msgs ++ [{ m with content := m.content ++ t }], some msgs.length⟩ := by
      simp only [handleChatToken]
      rw [appendTokenAt_append]
    rw [hstep]
    have := ih { m with content := m.content ++ t }
    rw [processTokens] at this
    rw [this]
    simp [concatTokens, String.append_assoc]

/-- C7: from a state with no in-progress streaming message, an in-order
sequence of `chat_stream` token events followed by a `done` event adds
exactly one new assistant message at the end of the list, whose content is
the concatenation of the tokens in arrival order; every previously existing
message is unchanged; and the `done` event itself never adds a message. -/
theorem chatStream_one_assistant_message (msgs : List Message)
    (tokens : List String) (h : tokens ≠ []) :
    handleChatDone (processTokens ⟨msgs, none⟩ tokens) =
      ⟨msgs ++ [{ role := Role.assistant, content := concatTokens tokens }],
       none⟩ ∧
    (∀ st : StreamState, (handleChatDone st).messages = st.messages) := by
  refine ⟨?_, fun st => rfl⟩
  cases tokens with
  | nil => exact absurd rfl h
  | cons t ts =>
    rw [processTokens, List.foldl_cons]
    have hfirst : handleChatToken ⟨msgs, none⟩ t =
        ⟨msgs ++ [{ role := Role.assistant, content := t }],
         some msgs.length⟩ := rfl
    rw [hfirst]
    have := processTokens_streaming ts msgs { role := Role.assistant, content := t }
    rw [processTokens] at this
    rw [this]
    simp [handleChatDone, concatTokens]

/-- Witness for C7 at a concrete token sequence. -/
theorem chatStream_one_assistant_message_witness :
    handleChatDone (processTokens ⟨[], none⟩ ["Hel", "lo"]) =
      ⟨[{ role := Role.assistant, content := concatTokens ["Hel", "lo"] }],
       none⟩ :=
  (chatStream_one_assistant_message [] ["Hel", "lo"] (by decide)).1

/-!
### C8: session search and ordering (App.tsx lines 122-131)

```ts
const filteredSessions = useMemo(() => {
  const q = sessionSearch.toLowerCase();
  const list = q ? sessions.filter((s) => s.title.toLowerCase().includes(q)
                                       || s.id.toLowerCase().includes(q)) : sessions;
  return [...list].sort((a, b) => {
    const ap = a.pinned ? 1 : 0;
    const bp = b.pinned ? 1 : 0;
    if (ap !== bp) return bp - ap;
    return b.updated_at - a.updated_at;
  });
}, [sessions, sessionSearch]);
```

`Array.prototype.sort` with a consistent comparator returns a permutation of
the input ordered by the comparator; it is modelled by `List.mergeSort` on
the relation `comparator a b <= 0`.
-/

/-- JavaScript `String.prototype.toLowerCase`, modelled characterwise for
the ASCII range via `Char.toLower`. -/
def jsToLower (s : String) : String :=
  ⟨s.data.map Char.toLower⟩

/-- `q.isPrefixOf l` on character lists (helper for substring search). -/
def isPre : List Char → List Char → Bool
  | [], _ => true
  | _ :: _, [] => false
  | a :: asx, b :: bs => a == b && isPre asx bs

/-- `l` has `q` as a contiguous sublist (JavaScript `includes` on strings). -/
def hasSubList (q : List Char) : List Char → Bool
  | [] => q.isEmpty
  | c :: rest => isPre q (c :: rest) || hasSubList q rest

/-- JavaScript `s.includes(q)`. -/
def strIncludes (s q : String) : Bool :=
  hasSubList q.data s.data

/-- The filter predicate of `filteredSessions`:
`s.title.toLowerCase().includes(q) || s.id.toLowerCase().includes(q)` with
`q` already lowercased. -/
def sessionMatches (q : String) (s : Session) : Bool :=
  strIncludes (jsToLower s.title) q || strIncludes (jsToLower s.id) q

/-- The comparator passed to `sort` in `filteredSessions`. -/
def sessionCmp (a b : Session) : Int :=
  let ap : Int := if a.pinned then 1 else 0
  let bp : Int := if b.pinned then 1 else 0
  if ap ≠ bp then bp - ap else (b.updated_at : Int) - (a.updated_at : Int)

/-- The `filteredSessions` memo from App.tsx. -/
def filteredSessions (sessions : List Session) (sessionSearch : String) :
    List Session :=
  let q := jsToLower sessionSearch
  let list := if q = "" then sessions else sessions.filter (sessionMatches q)
  list.mergeSort (fun a b => decide (sessionCmp a b ≤ 0))

/-- `l` contains `q` as a contiguous substring (specification-side notion). -/
def containsSub (l q : List Char) : Prop :=
  ∃ pre post, l = pre ++ q ++ post

/-- The display order stated by the spec: pinned sessions before unpinned
ones, and inside each pinned/unpinned group `updated_at` descending. -/
def sessionBefore (a b : Session) : Prop :=
  (a.pinned = true ∧ b.pinned = false) ∨
  (a.pinned = b.pinned ∧ b.updated_at ≤ a.updated_at)

theorem isPre_iff (q l : List Char) :
    isPre q l = true ↔ ∃ post, l = q ++ post := by
  induction q generalizing l with
  | nil => simp [isPre]
  | cons a asx ih =>
    cases l with
    | nil => simp [isPre]
    | cons b bs =>
      rw [isPre, Bool.and_eq_true, beq_iff_eq, ih]
      constructor
      · rintro ⟨rfl, post, rfl⟩
        exact ⟨post, rfl⟩
      · rintro ⟨post, h⟩
        injection h with h1 h2
        exact ⟨h1.symm ▸ rfl, post, h2⟩

theorem hasSubList_iff (q l : List Char) :
    hasSubList q l = true ↔ containsSub l q := by
  induction l with
  | nil =>
    simp only [hasSubList, containsSub, List.isEmpty_iff]
    constructor
    · rintro rfl
      exact ⟨[], [], rfl⟩
    · rintro ⟨pre, post, h⟩
      have h2 : (pre ++ q) ++ post = [] := h.symm
      rcases List.append_eq_nil.mp h2 with ⟨h3, -⟩
      exact (List.append_eq_nil.mp h3).2
  | cons c rest ih =>
    rw [hasSubList, Bool.or_eq_true, isPre_iff, ih]
    constructor
    · rintro (⟨post, h⟩ | ⟨pre, post, h⟩)
      · exact ⟨[], post, by simp [h]⟩
      · exact ⟨c :: pre, post, by simp [h]⟩
    · rintro ⟨pre, post, h⟩
      cases pre with
      | nil =>
        left
        exact ⟨post, by simpa using h⟩
      | cons p ps =>
        right
        injection h with h1 h2
        exact ⟨ps, post, h2⟩

theorem sessionMatches_iff (q : String) (s : Session) :
    sessionMatches q s = true ↔
      (containsSub (jsToLower s.title).data q.data ∨
       containsSub (jsToLower s.id).data q.data) := by
  rw [sessionMatches, Bool.or_eq_true, strIncludes, strIncludes,
    hasSubList_iff, hasSubList_iff]

theorem sessionCmp_le_iff (a b : Session) :
    sessionCmp a b ≤ 0 ↔ sessionBefore a b := by
  cases ha : a.pinned <;> cases hb : b.pinned <;>
    simp [sessionCmp, sessionBefore, ha, hb] <;> omega

theorem sessionBefore_trans (a b c : Session) (h1 : sessionBefore a b)
    (h2 : sessionBefore b c) : sessionBefore a c := by
  rcases h1 with ⟨h1a, h1b⟩ | ⟨h1a, h1b⟩ <;>
    rcases h2 with ⟨h2a, h2b⟩ | ⟨h2a, h2b⟩
  · rw [h1b] at h2a
    exact absurd h2a (by simp)
  · exact Or.inl ⟨h1a, h2a ▸ h1b⟩
  · exact Or.inl ⟨h1a.trans h2a, h2b⟩
  · exact Or.inr ⟨h1a.trans h2a, le_trans h2b h1b⟩

theorem sessionCmp_total (a b : Session) :
    (decide (sessionCmp a b ≤ 0) || decide (sessionCmp b a ≤ 0)) = true := by
  cases ha : a.pinned <;> cases hb : b.pinned <;>
    simp [sessionCmp, ha, hb] <;> omega

/-- C8: `filteredSessions` displays exactly the sessions whose title or id
contains the (lowercased) query as a substring — with an empty query this
is every session, since the empty string is a substring of anything — and
the displayed list is ordered pinned-first and, within each pinned/unpinned
group, by `updated_at` descending. -/
theorem filteredSessions_search_and_order
    (sessions : List Session) (query : String) :
    (∀ s, s ∈ filteredSessions sessions query ↔
       s ∈ sessions ∧
       (containsSub (jsToLower s.title).data (jsToLower query).data ∨
        containsSub (jsToLower s.id).data (jsToLower query).data)) ∧
    (filteredSessions sessions query).Pairwise sessionBefore := by
  constructor
  · intro s
    rw [filteredSessions]
    rw [List.Perm.mem_iff (List.mergeSort_perm _ _)]
    by_cases hq : jsToLower query = ""
    · rw [if_pos hq]
      have hnil : (jsToLower query).data = [] := by
        rw [hq]
      rw [hnil]
      constructor
      · intro hmem
        exact ⟨hmem, Or.inl ⟨[], (jsToLower s.title).data, rfl⟩⟩
      · exact fun h => h.1
    · rw [if_neg hq, List.mem_filter, sessionMatches_iff]
  · have hP := List.sorted_mergeSort
      (fun a b c hab hbc => by
        rw [decide_eq_true_eq] at hab hbc ⊢
        rw [sessionCmp_le_iff] at hab hbc ⊢
        exact sessionBefore_trans a b c hab hbc)
      sessionCmp_total
      (if jsToLower query = "" then sessions
       else sessions.filter (sessionMatches (jsToLower query)))
    rw [filteredSessions]
    exact hP.imp (fun hab => (sessionCmp_le_iff _ _).mp (by simpa using hab))

/-- Witness for C8: a matching session is displayed and a non-matching one
is not, at a concrete list and query. -/
theorem filteredSessions_search_and_order_witness :
    (⟨"s1", "Fix bug", 5, false⟩ : Session) ∈
        filteredSessions [⟨"s1", "Fix bug", 5, false⟩,
                          ⟨"s2", "Write docs", 9, false⟩] "BUG" ∧
    (⟨"s2", "Write docs", 9, false⟩ : Session) ∉
        filteredSessions [⟨"s1", "Fix bug", 5, false⟩,
                          ⟨"s2", "Write docs", 9, false⟩] "BUG" := by
  constructor
  · exact ((filteredSessions_search_and_order
        [⟨"s1", "Fix bug", 5, false⟩, ⟨"s2", "Write docs", 9, false⟩]
        "BUG").1 _).mpr
      ⟨by decide, Or.inl ⟨("fix ").data, [], by decide⟩⟩
  · intro hmem
    have h := ((filteredSessions_search_and_order
        [⟨"s1", "Fix bug", 5, false⟩, ⟨"s2", "Write docs", 9, false⟩]
        "BUG").1 _).mp hmem
    rcases h.2 with hc | hc
    · exact absurd ((hasSubList_iff _ _).mpr hc) (by decide)
    · exact absurd ((hasSubList_iff _ _).mpr hc) (by decide)

/-!
### C10: thread items (App.tsx lines 225-260)

```ts
const threadItems = useMemo(() => {
  const items: ThreadItem[] = [];
  let currentToolGroup: ThreadItem | null = null;
  messages.forEach((msg) => {
    if (msg.role === "assistant" && msg.tool_calls && msg.tool_calls.length > 0) {
      currentToolGroup = { type: "tool_group",
        tools: msg.tool_calls.map(call => ({ call, status: "running" })) };
      items.push(currentToolGroup);
    } else if (msg.role === "tool") {
      if (currentToolGroup && currentToolGroup.tools) {
        const toolIdx = currentToolGroup.tools.findIndex(t => t.call.id === msg.tool_call_id);
        if (toolIdx !== -1) {
          currentToolGroup.tools[toolIdx].result = msg.content as string;
          currentToolGroup.tools[toolIdx].status = "success";
        }
      }
    } else {
      currentToolGroup = null;
      items.push({ type: "message", role: msg.role as any, content: msg.content });
    }
  });
  return items;
}, [messages]);
```

`currentToolGroup` aliases the last pushed tool group, so the in-place
mutation is modelled as an update of the item at the remembered index.
-/

/-- The per-call status rendered inside a tool group. -/
inductive ToolRunStatus where
  | running
  | success
  | error
deriving DecidableEq, Repr

/-- One entry of a tool group (`tools` array element of a `ThreadItem`). -/
structure ToolEntry where
  call : ToolCall
  result : Option String
  status : ToolRunStatus
deriving DecidableEq, Repr

/-- `interface ThreadItem` from App.tsx, as a sum of its two shapes. -/
inductive ThreadItem where
  | message (role : Role) (content : String)
  | toolGroup (tools : List ToolEntry)
deriving DecidableEq, Repr

/-- `tools.findIndex(t => t.call.id === msg.tool_call_id)` followed by the
in-place result/status assignment: rewrite the first matching entry, leave
the rest alone; no match leaves the list unchanged. -/
def updateToolResult : List ToolEntry → Option String → String → List ToolEntry
  | [], _, _ => []
  | t :: rest, tid, content =>
      if some t.call.id = tid then
        { t with result := some content, status := ToolRunStatus.success } :: rest
      else t :: updateToolResult rest tid content

/-- Apply `f` to the element at index `i` (the mutation of the aliased
`currentToolGroup` object inside `items`). -/
def modifyIdx : List ThreadItem → Nat → (ThreadItem → ThreadItem) → List ThreadItem
  | [], _, _ => []
  | x :: rest, 0, f => f x :: rest
  | x :: rest, Nat.succ n, f => x :: modifyIdx rest n f

/-- One iteration of the `forEach` body: state is the item list so far plus
the index of the open tool group (if any). -/
def stepThread (acc : List ThreadItem × Option Nat) (msg : Message) :
    List ThreadItem × Option Nat :=
  if msg.role = Role.assistant ∧ msg.tool_calls.getD [] ≠ [] then
    (acc.1 ++ [ThreadItem.toolGroup ((msg.tool_calls.getD []).map (fun call =>
        { call := call, result := none, status := ToolRunStatus.running }))],
     some acc.1.length)
  else if msg.role = Role.tool then
    match acc.2 with
    | some gi =>
        (modifyIdx acc.1 gi (fun item =>
           match item with
           | ThreadItem.toolGroup tools =>
               ThreadItem.toolGroup (updateToolResult tools msg.tool_call_id msg.content)
           | other => other), some gi)
    | none => acc
  else
    (acc.1 ++ [ThreadItem.message msg.role msg.content], none)

/-- The `threadItems` memo: fold the `forEach` body over the messages. -/
def threadItems (messages : List Message) : List ThreadItem :=
  (messages.foldl stepThread ([], none)).1

/-- A `tool` message as it reaches `threadItems`. -/
def toolMsg (tid : Option String) (content : String) : Message :=
  { role := Role.tool, content := content, tool_calls := none,
    tool_call_id := tid }

/-- The status recorded for the first entry matching `tid` in a tool group. -/
def firstStatus : List ToolEntry → Option String → Option ToolRunStatus
  | [], _ => none
  | t :: rest, tid =>
      if some t.call.id = tid then some t.status else firstStatus rest tid

theorem modifyIdx_length (l : List ThreadItem) (i : Nat)
    (f : ThreadItem → ThreadItem) : (modifyIdx l i f).length = l.length := by
  induction l generalizing i with
  | nil => rfl
  | cons x rest ih =>
    cases i with
    | zero => rfl
    | succ n => simp [modifyIdx, ih]

theorem modifyIdx_getElem?_self (l : List ThreadItem) (i : Nat) (x : ThreadItem)
    (f : ThreadItem → ThreadItem) (h : l[i]? = some x) :
    (modifyIdx l i f)[i]? = some (f x) := by
  induction l generalizing i with
  | nil => simp at h
  | cons y rest ih =>
    cases i with
    | zero =>
      simp only [List.getElem?_cons_zero, Option.some.injEq] at h
      simp [modifyIdx, h]
    | succ n =>
      simp only [List.getElem?_cons_succ] at h
      simp [modifyIdx, ih n h]

theorem modifyIdx_getElem?_ne (l : List ThreadItem) (i j : Nat)
    (f : ThreadItem → ThreadItem) (h : j ≠ i) :
    (modifyIdx l i f)[j]? = l[j]? := by
  induction l generalizing i j with
  | nil => rfl
  | cons y rest ih =>
    cases i with
    | zero =>
      cases j with
      | zero => exact absurd rfl h
      | succ m => simp [modifyIdx]
    | succ n =>
      cases j with
      | zero => simp [modifyIdx]
      | succ m => simp [modifyIdx, ih n m (fun hc => h (by rw [hc]))]

theorem modifyIdx_fix (l : List ThreadItem) (i : Nat) (x : ThreadItem)
    (f : ThreadItem → ThreadItem) (h : l[i]? = some x) (hf : f x = x) :
    modifyIdx l i f = l := by
  induction l generalizing i with
  | nil => rfl
  | cons y rest ih =>
    cases i with
    | zero =>
      simp only [List.getElem?_cons_zero, Option.some.injEq] at h
      simp [modifyIdx, h, hf]
    | succ n =>
      simp only [List.getElem?_cons_succ] at h
      simp [modifyIdx, ih n h]

theorem updateToolResult_no_match (ts : List ToolEntry) (tid : Option String)
    (content : String) (h : ∀ t ∈ ts, some t.call.id ≠ tid) :
    updateToolResult ts tid content = ts := by
  induction ts with
  | nil => rfl
  | cons t rest ih =>
    have ht := h t (List.mem_cons_self t rest)
    rw [updateToolResult, if_neg ht]
    rw [ih (fun u hu => h u (List.mem_cons_of_mem t hu))]

theorem firstStatus_updateToolResult (ts : List ToolEntry) (tid : Option String)
    (content : String) (h : ∃ t ∈ ts, some t.call.id = tid) :
    firstStatus (updateToolResult ts tid content) tid =
      some ToolRunStatus.success := by
  induction ts with
  | nil => simp at h
  | cons t rest ih =>
    by_cases ht : some t.call.id = tid
    · rw [updateToolResult, if_pos ht, firstStatus, if_pos ht]
    · rw [updateToolResult, if_neg ht, firstStatus, if_neg ht]
      rcases h with ⟨u, hu, hid⟩
      rcases List.mem_cons.mp hu with rfl | hu2
      · exact absurd hid ht
      · exact ih ⟨u, hu2, hid⟩

theorem stepThread_tool_eq (items : List ThreadItem) (gi : Nat)
    (tid : Option String) (content : String) :
    stepThread (items, some gi) (toolMsg tid content) =
      (modifyIdx items gi (fun item =>
        match item with
        | ThreadItem.toolGroup tools =>
            ThreadItem.toolGroup (updateToolResult tools tid content)
        | other => other), some gi) := by
  simp [stepThread, toolMsg]

/-- C10: in the `threadItems` fold, a `tool` message whose `tool_call_id`
matches a call in the open tool group (the one created by the nearest
preceding assistant message carrying tool calls) rewrites that group so the
matched call reports status `success` — whatever the message content says,
including failure text — while no item is added or removed; a `tool`
message that matches no call in the open group leaves the items untouched;
and a `tool` message arriving with no open group (it follows a message that
is not a tool-call message) produces no thread item at all. -/
theorem threadItems_tool_success_or_ignored
    (items : List ThreadItem) (gi : Nat) (tools : List ToolEntry)
    (tid : Option String) (content : String) :
    (items[gi]? = some (ThreadItem.toolGroup tools) →
     (∃ t ∈ tools, some t.call.id = tid) →
       (stepThread (items, some gi) (toolMsg tid content)).2 = some gi ∧
       (stepThread (items, some gi) (toolMsg tid content)).1.length =
         items.length ∧
       (∀ j, j ≠ gi →
         (stepThread (items, some gi) (toolMsg tid content)).1[j]? = items[j]?) ∧
       (stepThread (items, some gi) (toolMsg tid content)).1[gi]? =
         some (ThreadItem.toolGroup (updateToolResult tools tid content)) ∧
       firstStatus (updateToolResult tools tid content) tid =
         some ToolRunStatus.success) ∧
    (items[gi]? = some (ThreadItem.toolGroup tools) →
     (∀ t ∈ tools, some t.call.id ≠ tid) →
       stepThread (items, some gi) (toolMsg tid content) = (items, some gi)) ∧
    (stepThread (items, none) (toolMsg tid content) = (items, none)) := by
  refine ⟨?_, ?_, ?_⟩
  · intro hg hmem
    rw [stepThread_tool_eq]
    refine ⟨rfl, modifyIdx_length items gi _, ?_, ?_, ?_⟩
    · intro j hj
      exact modifyIdx_getElem?_ne items gi j _ hj
    · exact modifyIdx_getElem?_self items gi _ _ hg
    · exact firstStatus_updateToolResult tools tid content hmem
  · intro hg hnone
    rw [stepThread_tool_eq]
    rw [modifyIdx_fix items gi (ThreadItem.toolGroup tools) _ hg]
    show ThreadItem.toolGroup (updateToolResult tools tid content) =
      ThreadItem.toolGroup tools
    rw [updateToolResult_no_match tools tid content hnone]
  · simp [stepThread, toolMsg]

/-- Witness for C10 at a concrete state: a failing tool result is rendered
with status `success` inside the open group, and a tool message with no
open group adds nothing. -/
theorem threadItems_tool_success_or_ignored_witness :
    (stepThread
        ([ThreadItem.toolGroup
            [⟨⟨"c1", ⟨"write_file", "notes.md"⟩⟩, none, ToolRunStatus.running⟩]],
         some 0)
        (toolMsg (some "c1") "Error: permission denied")).1[0]? =
      some (ThreadItem.toolGroup (updateToolResult
        [⟨⟨"c1", ⟨"write_file", "notes.md"⟩⟩, none, ToolRunStatus.running⟩]
        (some "c1") "Error: permission denied")) ∧
    firstStatus (updateToolResult
        [⟨⟨"c1", ⟨"write_file", "notes.md"⟩⟩, none, ToolRunStatus.running⟩]
        (some "c1") "Error: permission denied") (some "c1") =
      some ToolRunStatus.success ∧
    stepThread ([ThreadItem.message Role.user "hi"], none)
        (toolMsg (some "c1") "output") =
      ([ThreadItem.message Role.user "hi"], none) :=
  ⟨((threadItems_tool_success_or_ignored
      [ThreadItem.toolGroup
        [⟨⟨"c1", ⟨"write_file", "notes.md"⟩⟩, none, ToolRunStatus.running⟩]]
      0 [⟨⟨"c1", ⟨"write_file", "notes.md"⟩⟩, none, ToolRunStatus.running⟩]
      (some "c1") "Error: permission denied").1 (by decide) (by decide)).2.2.2.1,
   ((threadItems_tool_success_or_ignored
      [ThreadItem.toolGroup
        [⟨⟨"c1", ⟨"write_file", "notes.md"⟩⟩, none, ToolRunStatus.running⟩]]
      0 [⟨⟨"c1", ⟨"write_file", "notes.md"⟩⟩, none, ToolRunStatus.running⟩]
      (some "c1") "Error: permission denied").1 (by decide) (by decide)).2.2.2.2,
   (threadItems_tool_success_or_ignored [ThreadItem.message Role.user "hi"]
      0 [] (some "c1") "output").2.2⟩

end Deskwork
